import Mathlib

/-!
# Verification of the lzjs compression library (src/lzjs.js)

Shallow embedding of the lzjs codec: strings are lists of UTF-16 code
units (`List Nat`), and each JavaScript function is translated into an
executable Lean definition.  Theorems at the end of the file settle the
specification claims against these definitions.
-/

namespace Lzjs

/-! ## Alphabet and derived constants (lzjs.js lines 55-113) -/

/-- The six excluded control characters (the `esc` object). -/
def escCodes : List Nat := [0x8, 0xa, 0xb, 0xc, 0xd, 0x5c]

/-- The alphabet `TABLE`: code points `0 ≤ c < 0x7f` not in `escCodes`, in order. -/
def TABLE : List Nat := (List.range 0x7f).filter (fun i => !(escCodes.contains i))

def TABLE_LENGTH : Nat := TABLE.length

def TABLE_DIFF : Nat := max TABLE_LENGTH 62 - min TABLE_LENGTH 62

def BUFFER_MAX : Nat := TABLE_LENGTH - 1

def WINDOW_MAX : Nat := 1024

def WINDOW_BUFFER_MAX : Nat := 304

def LATIN_CHAR_MAX : Nat := 11

def LATIN_BUFFER_MAX : Nat := LATIN_CHAR_MAX * (LATIN_CHAR_MAX + 1)

def UNICODE_CHAR_MAX : Nat := 40

def UNICODE_BUFFER_MAX : Nat := UNICODE_CHAR_MAX * (UNICODE_CHAR_MAX + 1)

def LATIN_INDEX : Nat := TABLE_LENGTH + 1

def LATIN_INDEX_START : Nat := TABLE_DIFF + 20

def UNICODE_INDEX : Nat := TABLE_LENGTH + 5

def DECODE_MAX : Nat := TABLE_LENGTH - TABLE_DIFF - 19

def LATIN_DECODE_MAX : Nat := UNICODE_CHAR_MAX + 7

def CHAR_START : Nat := LATIN_DECODE_MAX + 1

def COMPRESS_START : Nat := CHAR_START + 1

def COMPRESS_FIXED_START : Nat := COMPRESS_START + 5

def COMPRESS_INDEX : Nat := COMPRESS_FIXED_START + 5

/-- Forward table for the compressor: `table[i] = TABLE.charCodeAt(i)`;
an out-of-range read of the typed array stores 0 in the output buffer. -/
def tableAt (i : Nat) : Nat := TABLE.getD i 0

/-- Reverse table for the decompressors: code point to alphabet index. -/
def tableIndex (ch : Nat) : Option Nat := TABLE.indexOf? ch

/-! ## The sliding-window prelude (`createWindow`, lzjs.js lines 718-738) -/

/-- One round of the inner `for (j = len - 1; j > 15 && win.length < WINDOW_MAX; j--)`
loop for a fixed letter `c`: `j` runs `25, 24, …, 16` (here `j = 25 - k`),
and each step appends `' ' + c + ' ' + alpha.charAt(j)` while the window
is still shorter than `WINDOW_MAX`. -/
def windowAppend (win : List Nat) (c : Nat) : List Nat :=
  (List.range 10).foldl
    (fun w k => if w.length < WINDOW_MAX then w ++ [32, c, 32, 97 + (25 - k)] else w)
    win

/-- Function `createWindow()`: build the 1024-code-point prelude.  After the
letter loops, the source left-pads with spaces while the window is shorter
than `WINDOW_MAX` and truncates with `slice(0, WINDOW_MAX)`. -/
def createWindow : List Nat :=
  let win := (List.range 26).foldl (fun w i => windowAppend w (97 + i)) []
  let win := List.replicate (WINDOW_MAX - win.length) 32 ++ win
  win.take WINDOW_MAX

/-! ## UTF-8 bridge (`toUTF8`, `toUTF16`, `byteLength`, lzjs.js lines 797-867) -/

/-- Encoding of a single UTF-16 code unit by `toUTF8`: 1, 2 or 3 bytes;
code units `≥ 0x10000` cannot occur in JavaScript and produce nothing. -/
def utf8Enc (c : Nat) : List Nat :=
  if c < 0x80 then [c]
  else if c < 0x800 then
    [0xc0 ||| ((c >>> 6) &&& 0x1f), 0x80 ||| (c &&& 0x3f)]
  else if c < 0x10000 then
    [0xe0 ||| ((c >>> 12) &&& 0xf), 0x80 ||| ((c >>> 6) &&& 0x3f), 0x80 ||| (c &&& 0x3f)]
  else []

/-- Function `toUTF8(data)`: concatenate the per-code-unit encodings. -/
def toUTF8 (data : List Nat) : List Nat := (data.map utf8Enc).flatten

/-- Function `toUTF16(data)`: dispatch on the high nibble `n = c >> 4` of each
byte, consuming 1, 2 or 3 bytes.  Reading past the end of the string yields
`NaN` in JavaScript, and `NaN & 0x3f = 0`, so a truncated multi-byte sequence
still emits one code unit built from the bytes that are present. -/
def toUTF16 : List Nat → List Nat
  | [] => []
  | c :: rest =>
    if c >>> 4 ≤ 7 then c :: toUTF16 rest
    else if 12 ≤ c >>> 4 ∧ c >>> 4 ≤ 13 then
      match rest with
      | [] => [(c &&& 0x1f) <<< 6]
      | c2 :: rest2 => (((c &&& 0x1f) <<< 6) ||| (c2 &&& 0x3f)) :: toUTF16 rest2
    else if c >>> 4 = 14 then
      match rest with
      | [] => [(c &&& 0xf) <<< 12]
      | c2 :: rest2 =>
        match rest2 with
        | [] => [((c &&& 0xf) <<< 12) ||| ((c2 &&& 0x3f) <<< 6)]
        | c3 :: rest3 =>
          ((((c &&& 0xf) <<< 12) ||| ((c2 &&& 0x3f) <<< 6)) ||| (c3 &&& 0x3f)) :: toUTF16 rest3
    else toUTF16 rest

/-- Function `byteLength(data)`: UTF-8 byte length under the 1/2/3 rule. -/
def byteLength (data : List Nat) : Nat :=
  data.foldl (fun acc c => acc + if c < 0x80 then 1 else if c < 0x800 then 2 else 3) 0

/-- The budget test `bytes > this._maxBytes`.  When no `maxBytes` option was
given the JavaScript comparison against `undefined` is always false. -/
def budgetExceeded (maxBytes : Option Nat) (bytes : Nat) : Bool :=
  match maxBytes with
  | none => false
  | some m => bytes > m

/-! ## LZW codec (lzjs.js lines 471-609)

The outbound dictionary `dict` is an array indexed by key length whose
entries are objects mapping keys to their emission characters; `dictLen`
is the 32-bit bitmap of created lengths (`dictLen |= 1 << length`, where
JavaScript reduces the shift count mod 32). -/

/-- Outbound LZW dictionary: buckets per key length plus the bitmap. -/
structure LZWDict where
  tbl : List (Nat × List (List Nat × Nat))
  mask : Nat

/-- Read `dict[length]` (the bucket for one key length). -/
def dictGet (d : LZWDict) (len : Nat) : Option (List (List Nat × Nat)) :=
  (d.tbl.find? (fun p => p.1 == len)).map (fun p => p.2)

/-- Read `dict[key.length][key]`. -/
def dictGetKey (d : LZWDict) (key : List Nat) : Option Nat :=
  match dictGet d key.length with
  | some m => (m.find? (fun p => p.1 == key)).map (fun p => p.2)
  | none => none

/-- The membership test of `LZW.prototype.compress`:
`((length < 32 && (dictLen & bitLen)) || (length >= 32 && dict[length] !== void 0))
 && hasOwnProperty.call(dict[length], key)`.
When the bitmap bit is set but `dict[length]` is `undefined` the JavaScript
call would raise a `TypeError`; that situation is unreachable (buckets for
every smaller key length are created first), and the model returns false. -/
def lzwHas (d : LZWDict) (key : List Nat) : Bool :=
  let length := key.length
  (if length < 32 then d.mask.testBit length else (dictGet d length).isSome) &&
    (match dictGet d length with
     | some m => (m.find? (fun p => p.1 == key)).isSome
     | none => false)

/-- Store `dict[length][key] = v`, after creating the bucket (and setting its
bitmap bit) when absent, exactly as in the `code <= codeMax` block.  If the
bucket is still absent after the create test (the unreachable `TypeError`
situation) the store is a no-op. -/
def lzwAdd (d : LZWDict) (key : List Nat) (v : Nat) : LZWDict :=
  let length := key.length
  let needCreate := if length < 32 then !(d.mask.testBit length) else (dictGet d length).isNone
  let d1 := if needCreate then
      { tbl := d.tbl ++ [(length, [])], mask := d.mask ||| (1 <<< (length % 32)) }
    else d
  { d1 with tbl := d1.tbl.map (fun p => if p.1 == length then (p.1, p.2 ++ [(key, v)]) else p) }

/-- Mutable state of `LZW.prototype.compress` apart from the scan buffer. -/
structure LZWComp where
  dict : LZWDict
  code : Nat
  codeBytes : Nat
  result : List Nat
  resultBytes : Nat

/-- Emit the current buffer: a single character is emitted literally and
charged one byte, a longer buffer emits its stored dictionary character and
is charged `codeBytes` bytes.  A missing entry (unreachable: every buffer of
length `≥ 2` was found in the dictionary) emits 0. -/
def lzwEmit (st : LZWComp) (buffer : List Nat) : LZWComp :=
  if buffer.length = 1 then
    { st with result := st.result ++ buffer, resultBytes := st.resultBytes + 1 }
  else
    { st with result := st.result ++ [(dictGetKey st.dict buffer).getD 0],
              resultBytes := st.resultBytes + st.codeBytes }

/-- Main loop of `LZW.prototype.compress` over the remaining input, carrying
the scan buffer.  `fromCharCode(code++)` stores `code % 0x10000` (ToUint16);
after the store, `codeBytes` becomes 3 once the incremented code reaches
0x800.  Returns `none` for the `BUDGET_EXCEEDED` signal (`return false`). -/
def lzwLoop (codeMax : Nat) (maxBytes : Option Nat) :
    List Nat → List Nat → LZWComp → Option (List Nat)
  | [], buffer, st =>
    let st1 := lzwEmit st buffer
    if budgetExceeded maxBytes st1.resultBytes then none else some st1.result
  | c :: rest, buffer, st =>
    let key := buffer ++ [c]
    if lzwHas st.dict key then lzwLoop codeMax maxBytes rest key st
    else
      let st1 := lzwEmit st buffer
      if budgetExceeded maxBytes st1.resultBytes then none
      else
        let st2 :=
          if st1.code ≤ codeMax then
            let st' := { st1 with dict := lzwAdd st1.dict key (st1.code % 0x10000),
                                  code := st1.code + 1 }
            if st'.code = 0x800 then { st' with codeBytes := 3 } else st'
          else st1
        lzwLoop codeMax maxBytes rest [c] st2

/-- Method `LZW.prototype.compress`.  Empty input returns the empty string. -/
def lzwCompress (codeStart codeMax : Nat) (maxBytes : Option Nat)
    (data : List Nat) : Option (List Nat) :=
  match data with
  | [] => some []
  | c :: rest =>
    lzwLoop codeMax maxBytes rest [c]
      { dict := ⟨[], 0⟩, code := codeStart + 1, codeBytes := 2,
        result := [], resultBytes := 0 }

/-- Mutable state of `LZW.prototype.decompress`.  The field `codeMax` mirrors
the local variable `var codeMax = this._codeStart`, which is never updated. -/
structure LZWDec where
  dict : List (Nat × List Nat)
  code : Nat
  codeMax : Nat
  ch : Nat
  prev : List Nat
  result : List Nat

/-- Inbound dictionary lookup `dict[c]`. -/
def assocGet (m : List (Nat × List Nat)) (k : Nat) : Option (List Nat) :=
  (m.find? (fun p => p.1 == k)).map (fun p => p.2)

/-- One step of the `LZW.prototype.decompress` loop for a consumed code `c`. -/
def lzwDecStep (st : LZWDec) (c : Nat) : LZWDec :=
  let buffer :=
    if c ≤ st.codeMax then [c]
    else
      match assocGet st.dict c with
      | some s => s
      | none => st.prev ++ [st.ch]
  let ch := buffer.headD 0
  { dict := st.dict ++ [(st.code, st.prev ++ [ch])]
    code := st.code + 1
    codeMax := st.codeMax
    ch := ch
    prev := buffer
    result := st.result ++ buffer }

/-- Method `LZW.prototype.decompress`; only `this._codeStart` is consulted. -/
def lzwDecompress (codeStart : Nat) (data : List Nat) : List Nat :=
  match data with
  | [] => []
  | c :: rest =>
    (rest.foldl lzwDecStep
      { dict := [], code := codeStart + 1, codeMax := codeStart,
        ch := c, prev := [c], result := [c] }).result

/-! ## LZSS compressor (lzjs.js lines 117-340)

Strings are lists of code units; `String.prototype.substring` with
in-range, ordered arguments is `jsSub`.  The compressor only calls
`_search` with `offset ≥ createWindow.length = 1024`, so the JavaScript
expressions `offset - WINDOW_BUFFER_MAX` and `offset + i - 3 - pos` are
nonnegative and truncated natural subtraction agrees with them. -/

/-- Slice `l.substring(a, b)` for `a ≤ b` (both clamped to the length). -/
def jsSub (l : List Nat) (a b : Nat) : List Nat := (l.take b).drop a

/-- Occurrence search `win.indexOf(s)`: the least start position of `s`. -/
def firstOcc (win s : List Nat) : Option Nat :=
  (List.range (win.length + 1)).find? (fun k => s.isPrefixOf (win.drop k))

/-- Occurrence search `win.lastIndexOf(s, limit)`: the greatest start
position `≤ limit` of `s`. -/
def lastOcc (win s : List Nat) (limit : Nat) : Option Nat :=
  ((List.range (limit + 1)).reverse).find? (fun k => s.isPrefixOf (win.drop k))

/-- The comparison `data.charCodeAt(a) === data.charCodeAt(b)`: false when
either side is out of range (`NaN === NaN` is false). -/
def jsCharEq (data : List Nat) (a b : Nat) : Bool :=
  match data[a]?, data[b]? with
  | some x, some y => x == y
  | _, _ => false

/-- Number of successful rounds of the greedy extension loop
`do { if (data.charCodeAt(offset + i) !== data.charCodeAt(j + i)) break; }
while (++i < len);` starting at position `k`: the loop leaves
`i = k + matchExtra data offset j len fuel k`.  The loop runs at most
`len - k` rounds because `i` must stay below `len`; `fuel` is any bound
on that count (the caller passes `len + 1`), ensuring termination. -/
def matchExtra (data : List Nat) (offset j len : Nat) : Nat → Nat → Nat
  | 0, _ => 0
  | fuel + 1, k =>
    if jsCharEq data (offset + k) (j + k) then
      if k + 1 < len then 1 + matchExtra data offset j len fuel (k + 1) else 1
    else 0

/-- The outer `do … while (++i < len)` loop of `LZSSCompressor._search`,
carrying the current length `i`, the search string `s`, the result `index`
of the initial two-character `indexOf` probe, and `bestIndex`.  Returns the
final `i` together with `bestIndex`.  `i` grows by at least one per round
and the loop exits once `i' + 1 ≥ len`, so it runs fewer than `len` rounds;
`fuel` is any bound on that count (`lzssSearch` passes `len`). -/
def searchLoop (data win : List Nat) (offset pos limit len : Nat) :
    Nat → Nat → List Nat → Option Nat → Option Nat → Nat × Option Nat
  | 0, i, _, _, best => (i, best)
  | fuel + 1, i, s, index, best =>
    let s' := if i = 2 then jsSub data offset (offset + 2)
      else if i = 3 then s ++ jsSub data (offset + 2) (offset + 3)
      else jsSub data offset (offset + i)
    let index' := if i = 2 then firstOcc win s' else index
    if i = 2 ∧ (index'.isNone ∨ limit < index'.getD 0) then (i, best)
    else
      match lastOcc win s' limit with
      | none => (i, best)
      | some lastIdx =>
        let j := pos + lastIdx
        let i' := i + matchExtra data offset j len (len + 1) i
        if index' = some lastIdx then (i' + 1, some lastIdx)
        else if i' + 1 < len then
          searchLoop data win offset pos limit len fuel (i' + 1) s' index' (some lastIdx)
        else (i' + 1, some lastIdx)

/-- Method `LZSSCompressor.prototype._search`: `none` for `return false`,
otherwise the pair `(this._index, this._length)` = (distance, length).
The source reads `this._index = WINDOW_BUFFER_MAX - bestIndex` and
`this._length = i - 1`; `bestIndex` is always assigned when `i ≠ 2`, and
the unreachable contrary case is mapped to `none`. -/
def lzssSearch (data : List Nat) (offset : Nat) : Option (Nat × Nat) :=
  let len := min BUFFER_MAX (data.length - offset)
  if len < 2 then none
  else
    let pos := offset - WINDOW_BUFFER_MAX
    let win := jsSub data pos (offset + len)
    let limit := offset + 2 - 3 - pos
    match searchLoop data win offset pos limit len len 2 [] none none with
    | (2, _) => none
    | (_, none) => none
    | (i, some best) => some (WINDOW_BUFFER_MAX - best, i - 1)

/-- Main loop of `LZSSCompressor.prototype.compress`, from state
`(offset, lastIndex, bytes, acc)`.  `lastIndex = none` models `-1`.  The
`fuel` argument only forces termination; `fuel = data.length + 1` is enough
because `offset` advances by at least one every iteration (match lengths
are `≥ 2`), which is proved below (`lzssLoop_fuel`).  Returns `none` for
the `BUDGET_EXCEEDED` signal. -/
def lzssLoop (data : List Nat) (maxBytes : Option Nat) :
    Nat → Nat → Option Nat → Nat → List Nat → Option (List Nat)
  | 0, _, _, _, _ => none
  | fuel + 1, offset, lastIndex, bytes, acc =>
    if offset < data.length then
      match lzssSearch data offset with
      | none =>
        let c := data.getD offset 0
        if c < LATIN_BUFFER_MAX then
          let c1 := if c < UNICODE_CHAR_MAX then c else c % UNICODE_CHAR_MAX
          let c2 := if c < UNICODE_CHAR_MAX then 0 else (c - c1) / UNICODE_CHAR_MAX
          let index := c2 + LATIN_INDEX
          let syms := if lastIndex = some index then [tableAt c1]
            else [tableAt (index - LATIN_INDEX_START), tableAt c1]
          let bytes' := bytes + syms.length
          if budgetExceeded maxBytes bytes' then none
          else lzssLoop data maxBytes fuel (offset + 1) (some index) bytes' (acc ++ syms)
        else
          let c1 := if c < UNICODE_BUFFER_MAX then c else c % UNICODE_BUFFER_MAX
          let c2 := if c < UNICODE_BUFFER_MAX then 0 else (c - c1) / UNICODE_BUFFER_MAX
          let index := c2 + UNICODE_INDEX
          let c3 := if c1 < UNICODE_CHAR_MAX then c1 else c1 % UNICODE_CHAR_MAX
          let c4 := if c1 < UNICODE_CHAR_MAX then 0 else (c1 - c3) / UNICODE_CHAR_MAX
          let syms := if lastIndex = some index then [tableAt c3, tableAt c4]
            else [tableAt CHAR_START, tableAt (index - TABLE_LENGTH), tableAt c3, tableAt c4]
          let bytes' := bytes + syms.length
          if budgetExceeded maxBytes bytes' then none
          else lzssLoop data maxBytes fuel (offset + 1) (some index) bytes' (acc ++ syms)
      | some (dist, length) =>
        let c1 := if dist < BUFFER_MAX then dist else dist % BUFFER_MAX
        let c2 := if dist < BUFFER_MAX then 0 else (dist - c1) / BUFFER_MAX
        let syms := if length = 2 then [tableAt (c2 + COMPRESS_FIXED_START), tableAt c1]
          else [tableAt (c2 + COMPRESS_START), tableAt c1, tableAt length]
        let bytes' := bytes + syms.length
        if budgetExceeded maxBytes bytes' then none
        else lzssLoop data maxBytes fuel (offset + length) none bytes' (acc ++ syms)
    else some acc

/-- Method `LZSSCompressor.prototype.compress`: prepend the window, start at
`offset = win.length`, run the main loop.  `none` is `BUDGET_EXCEEDED`. -/
def lzssCompress (maxBytes : Option Nat) (data : List Nat) : Option (List Nat) :=
  if data = [] then some []
  else
    let full := createWindow ++ data
    lzssLoop full maxBytes (data.length + 1) createWindow.length none 0 []

/-! ## LZSS decompressor (lzjs.js lines 344-467)

The decoder's `index` variable starts as `null` and can become `NaN`
when the character consumed for a page switch is not in the alphabet
(`table[…]` is `undefined` and `undefined - 5` is `NaN`), so it is
modelled by a three-valued type.  `String.fromCharCode` applies ToUint16:
`NaN` gives 0 and an `Int` is reduced mod 0x10000. -/

/-- JavaScript value of the decompressor's `index` variable. -/
inductive JVal where
  | null : JVal
  | nan : JVal
  | num : Int → JVal
deriving DecidableEq

/-- Numeric coercion: `null` is 0, `NaN` has no value. -/
def jvalToNum : JVal → Option Int
  | JVal.null => some 0
  | JVal.nan => none
  | JVal.num i => some i

/-- ToUint16 as applied by `String.fromCharCode`; `NaN` maps to 0. -/
def jsUint16 : Option Int → Nat
  | none => 0
  | some i => (i % 65536).toNat

/-- The last `n` elements, `l.slice(-n)` for `n > 0` (clamped). -/
def takeLast (n : Nat) (l : List Nat) : List Nat := l.drop (l.length - n)

/-- Slice `l.slice(-pos)` as used for the match copy: `pos = 0` (and the
`NaN` produced by an out-of-alphabet distance character, `none` here) give
`l.slice(0)`, the whole string. -/
def jsSliceNeg (l : List Nat) (pos : Option Nat) : List Nat :=
  match pos with
  | none => l
  | some 0 => l
  | some p => takeLast p l

/-- Truncation `l.substring(0, length)`; an `undefined` length (`none`)
keeps the whole string. -/
def jsTakeOpt (l : List Nat) (length : Option Nat) : List Nat :=
  match length with
  | none => l
  | some n => l.take n

/-- The run-length loop `while (shrink.length < length) shrink += sub;`,
only entered when `sub` is non-empty, in which case it runs at most `len`
rounds; `fuel` is any bound on that count (the caller passes `len`). -/
def shrinkLoop (sub : List Nat) (len : Nat) : Nat → List Nat → List Nat
  | 0, shrink => shrink
  | fuel + 1, shrink =>
    if shrink.length < len then shrinkLoop sub len fuel (shrink ++ sub)
    else shrink

/-- Contents appended by a match opcode: `sub` cyclically repeated up to
`length` characters, or nothing when `sub` is empty or `length` is the
`undefined` read past the end of the payload (the `while` guard
`shrink.length < undefined` is false and `''.substring(0, undefined)`
is empty). -/
def matchAppend (sub : List Nat) (length : Option Nat) : List Nat :=
  if sub = [] then []
  else
    match length with
    | none => []
    | some l => (shrinkLoop sub l l []).take l

/-- Main loop of `LZSSDecompressor.prototype.decompress`: state is the
page mode `out`, the page `index` and the accumulated buffer `result`
(which starts as the window).  Characters consumed by `data.charAt(++offset)`
inside an opcode are translated through the table wherever the source does
so; reading past the end of the payload yields `undefined`.  Opcode symbols
not in the alphabet are skipped only at the top of the loop.  Every
iteration consumes at least one input character, so any `fuel` larger than
the payload length is enough; `lzssDecompress` passes `data.length + 1`. -/
def lzssDecLoop : Nat → List Nat → Bool → JVal → List Nat → List Nat
  | 0, _, _, _, result => result
  | _ + 1, [], _, _, result => result
  | fuel + 1, ch :: rest, out, index, result =>
    match tableIndex ch with
    | none => lzssDecLoop fuel rest out index result
    | some c =>
      if c < DECODE_MAX then
        if !out then
          let code := jsUint16 ((jvalToNum index).map (fun i => i * UNICODE_CHAR_MAX + c))
          lzssDecLoop fuel rest out index (result ++ [code])
        else
          match rest with
          | [] => result ++ [0]
          | ch3 :: rest3 =>
            let c3 := tableIndex ch3
            let code := jsUint16 (match c3, jvalToNum index with
              | some v3, some i => some (v3 * UNICODE_CHAR_MAX + c + UNICODE_BUFFER_MAX * i)
              | _, _ => none)
            lzssDecLoop fuel rest3 out index (result ++ [code])
      else if c < LATIN_DECODE_MAX then
        lzssDecLoop fuel rest false (JVal.num ((c : Int) - DECODE_MAX)) result
      else if c = CHAR_START then
        match rest with
        | [] => result
        | ch2 :: rest2 =>
          let index' := match tableIndex ch2 with
            | none => JVal.nan
            | some v => JVal.num ((v : Int) - 5)
          lzssDecLoop fuel rest2 true index' result
      else if c < COMPRESS_INDEX then
        let doCopy := fun (c2 : Option Nat) (length : Option Nat) (base : Nat) =>
          let pos : Option Nat := c2.map (fun v => (c - base) * BUFFER_MAX + v)
          let sub := jsTakeOpt (jsSliceNeg (takeLast WINDOW_BUFFER_MAX result) pos) length
          result ++ matchAppend sub length
        if c < COMPRESS_FIXED_START then
          match rest with
          | [] => doCopy none none COMPRESS_START
          | [ch2] => doCopy (tableIndex ch2) none COMPRESS_START
          | ch2 :: chl :: rest2 =>
            lzssDecLoop fuel rest2 out JVal.null
              (doCopy (tableIndex ch2) (tableIndex chl) COMPRESS_START)
        else
          match rest with
          | [] => doCopy none (some 2) COMPRESS_FIXED_START
          | ch2 :: rest2 =>
            lzssDecLoop fuel rest2 out JVal.null
              (doCopy (tableIndex ch2) (some 2) COMPRESS_FIXED_START)
      else lzssDecLoop fuel rest out index result

/-- Method `LZSSDecompressor.prototype.decompress`: run the loop from the
window and strip the first `WINDOW_MAX` code units. -/
def lzssDecompress (data : List Nat) : List Nat :=
  if data = [] then []
  else (lzssDecLoop (data.length + 1) data false JVal.null createWindow).drop WINDOW_MAX

/-! ## Dispatcher (LZJS, lzjs.js lines 613-714) -/

/-- The threshold `dataBytes * 0.9 | 0`.  The source computes this in binary
floating point; for every `n < 2^31` (any realizable string) the result
equals `⌊9n/10⌋`: when `9n/10` is not an integer it is at least 1/10 away
from one, far beyond the error of the product, and when it is an integer
`k` the product `n * double(0.9)` lies in `[k, k + 5e-8]` and rounds to a
double `≥ k`. -/
def asciiLimitBytes (n : Nat) : Nat := n * 9 / 10

/-- Method `LZJS.prototype.compress`: pick LZW/LZSS/no-compression by input
shape with fallbacks and prepend the tag (`W` = 87, `S` = 83, `U` = 85,
`N` = 78).  Every sub-codec is budgeted by `maxBytes = byteLength data`. -/
def lzjsCompress (data : List Nat) : List Nat :=
  if data = [] then []
  else
    let dataBytes := byteLength data
    let len := data.length
    if dataBytes = len then
      match lzwCompress 0x7f 0x7ff (some dataBytes) data with
      | some r => 87 :: r
      | none =>
        match lzssCompress (some dataBytes) data with
        | some r => 83 :: r
        | none => 78 :: data
    else if dataBytes > len ∧ asciiLimitBytes dataBytes < len then
      match lzwCompress 0xff 0xffff (some dataBytes) (toUTF8 data) with
      | some r => 85 :: r
      | none =>
        match lzssCompress (some dataBytes) data with
        | some r => 83 :: r
        | none => 78 :: data
    else
      match lzssCompress (some dataBytes) data with
      | some r => 83 :: r
      | none =>
        match lzwCompress 0xff 0xffff (some dataBytes) (toUTF8 data) with
        | some r => if byteLength r > dataBytes then 78 :: data else 85 :: r
        | none => 78 :: data

/-- Method `LZJS.prototype.decompress`: dispatch on the tag character. -/
def lzjsDecompress (data : List Nat) : List Nat :=
  match data with
  | [] => []
  | t :: rest =>
    if t = 83 then lzssDecompress rest
    else if t = 87 then lzwDecompress 0x7f rest
    else if t = 85 then toUTF16 (lzwDecompress 0xff rest)
    else if t = 78 then rest
    else data

/-! ## Auxiliary definitions used by the claims -/

/-- State of the spec-side LZW decode loop of claim C6: it has no
`codeMax` field, because the claim says the literal threshold is the
constant `codeStart` throughout. -/
structure LZWDecSpecState where
  dict : List (Nat × List Nat)
  code : Nat
  ch : Nat
  prev : List Nat
  result : List Nat

/-- Spec-side decode step (claim C6): if `c ≤ codeStart` append the
literal, else if `c` is in the dictionary append its entry, else append
`prev ++ [ch]` (KwKwK); then set `ch` to the first character of the
emission, store `dict[code++] = prev ++ [ch]` and set `prev` to the
emission. -/
def lzwDecStepSpec (codeStart : Nat) (st : LZWDecSpecState) (c : Nat) :
    LZWDecSpecState :=
  let buffer :=
    if c ≤ codeStart then [c]
    else
      match assocGet st.dict c with
      | some s => s
      | none => st.prev ++ [st.ch]
  let ch := buffer.headD 0
  { dict := st.dict ++ [(st.code, st.prev ++ [ch])]
    code := st.code + 1
    ch := ch
    prev := buffer
    result := st.result ++ buffer }

/-- Spec-side LZW decoder of claim C6, with the constant threshold. -/
def lzwDecompressSpec (codeStart : Nat) (data : List Nat) : List Nat :=
  match data with
  | [] => []
  | c :: rest =>
    (rest.foldl (lzwDecStepSpec codeStart)
      { dict := [], code := codeStart + 1, ch := c, prev := [c],
        result := [c] }).result

/-- A lone (unpaired) UTF-16 surrogate: a high surrogate not followed by
a low one, or a low surrogate not preceded by a high one. -/
def hasLoneSurrogate : List Nat → Bool
  | [] => false
  | c :: rest =>
    if 0xD800 ≤ c ∧ c ≤ 0xDBFF then
      match rest with
      | [] => true
      | c2 :: rest2 =>
        if 0xDC00 ≤ c2 ∧ c2 ≤ 0xDFFF then hasLoneSurrogate rest2 else true
    else if 0xDC00 ≤ c ∧ c ≤ 0xDFFF then true
    else hasLoneSurrogate rest

/-- Relation between the compressor's `lastIndex` and the decompressor's
page state `(out, index)`: after a match (`lastIndex = -1`) the decoder
state is unconstrained because the compressor's next literal re-emits a
page switch; after a literal the two sides agree on the page. -/
def PageRel (lastIndex : Option Nat) (out : Bool) (index : JVal) : Prop :=
  match lastIndex with
  | none => True
  | some idx =>
    (∃ c2, c2 ≤ 3 ∧ idx = c2 + LATIN_INDEX ∧ out = false ∧ index = JVal.num c2) ∨
    (∃ c2, c2 ≤ 39 ∧ idx = c2 + UNICODE_INDEX ∧ out = true ∧ index = JVal.num c2)

/-- Pointwise agreement of `n` code units starting at `offset` and at
`base`: the match property established by a successful `_search`. -/
def matchEq (data : List Nat) (offset base n : Nat) : Prop :=
  ∀ k, k < n → ∃ x, data[offset + k]? = some x ∧ data[base + k]? = some x

/-! # Theorems

General-purpose lemmas first, then per-claim theorems. -/

theorem lor_eq_add_of_and (a : Nat) : ∀ b, a &&& b = 0 → a ||| b = a + b := by
  induction a using Nat.strong_induction_on with
  | _ a ih =>
    intro b h
    rcases Nat.eq_zero_or_pos a with ha | ha
    · subst ha; simp
    · have h2 : a / 2 &&& b / 2 = 0 := by rw [← Nat.and_div_two, h]
      have hodd : ¬(a % 2 = 1 ∧ b % 2 = 1) := by
        intro hx
        have := Nat.and_mod_two_eq_one.mpr hx
        rw [h] at this
        simp at this
      have ihh := ih (a / 2) (Nat.div_lt_self ha (by norm_num)) (b / 2) h2
      have key : a ||| b = 2 * (a / 2 + b / 2) + (a ||| b) % 2 := by
        conv_lhs => rw [← Nat.div_add_mod (a ||| b) 2]
        rw [Nat.or_div_two, ihh]
      have hor : (a ||| b) % 2 = 1 ↔ a % 2 = 1 ∨ b % 2 = 1 := Nat.or_mod_two_eq_one
      have hlt : (a ||| b) % 2 < 2 := Nat.mod_lt _ (by norm_num)
      omega

theorem lor_eq_add {k a b : Nat} (ha : a % 2 ^ k = 0) (hb : b < 2 ^ k) :
    a ||| b = a + b := by
  apply lor_eq_add_of_and
  have hb' : b &&& (2 ^ k - 1) = b := Nat.and_pow_two_sub_one_of_lt_two_pow hb
  have ha' : a &&& (2 ^ k - 1) = 0 := by
    rw [Nat.and_pow_two_sub_one_eq_mod]; exact ha
  calc a &&& b = a &&& ((2 ^ k - 1) &&& b) := by rw [Nat.and_comm (2 ^ k - 1) b, hb']
    _ = (a &&& (2 ^ k - 1)) &&& b := by rw [Nat.and_assoc]
    _ = 0 := by rw [ha']; simp

/-- Two-byte encoding in arithmetic form. -/
theorem utf8Enc_two {c : Nat} (h1 : 0x80 ≤ c) (h2 : c < 0x800) :
    utf8Enc c = [0xc0 + c / 64, 0x80 + c % 64] := by
  unfold utf8Enc
  rw [if_neg (by omega), if_pos h2]
  have e1 : c >>> 6 = c / 64 := Nat.shiftRight_eq_div_pow c 6
  have e2 : c / 64 &&& 31 = c / 64 % 32 := Nat.and_pow_two_sub_one_eq_mod _ 5
  have e3 : c &&& 63 = c % 64 := Nat.and_pow_two_sub_one_eq_mod c 6
  rw [e1, e2, Nat.mod_eq_of_lt (by omega), e3]
  rw [lor_eq_add (k := 5) (by norm_num) (by omega),
      lor_eq_add (k := 6) (by norm_num) (by omega)]

/-- Three-byte encoding in arithmetic form. -/
theorem utf8Enc_three {c : Nat} (h1 : 0x800 ≤ c) (h2 : c < 0x10000) :
    utf8Enc c = [0xe0 + c / 4096, 0x80 + c / 64 % 64, 0x80 + c % 64] := by
  unfold utf8Enc
  rw [if_neg (by omega), if_neg (by omega), if_pos h2]
  have e1 : c >>> 12 = c / 4096 := Nat.shiftRight_eq_div_pow c 12
  have e2 : c / 4096 &&& 15 = c / 4096 % 16 := Nat.and_pow_two_sub_one_eq_mod _ 4
  have e3 : c >>> 6 = c / 64 := Nat.shiftRight_eq_div_pow c 6
  have e4 : c / 64 &&& 63 = c / 64 % 64 := Nat.and_pow_two_sub_one_eq_mod _ 6
  have e5 : c &&& 63 = c % 64 := Nat.and_pow_two_sub_one_eq_mod c 6
  rw [e1, e2, Nat.mod_eq_of_lt (by omega), e3, e4, e5]
  rw [lor_eq_add (k := 4) (by norm_num) (by omega),
      lor_eq_add (k := 6) (by norm_num) (by omega),
      lor_eq_add (k := 6) (by norm_num) (by omega)]

theorem toUTF16_one {c : Nat} (h : c < 0x80) (tail : List Nat) :
    toUTF16 (c :: tail) = c :: toUTF16 tail := by
  rw [toUTF16.eq_def]
  dsimp only
  have e1 : c >>> 4 = c / 16 := Nat.shiftRight_eq_div_pow c 4
  rw [if_pos (by omega)]

theorem toUTF16_two {c : Nat} (h1 : 0x80 ≤ c) (h2 : c < 0x800) (tail : List Nat) :
    toUTF16 ((0xc0 + c / 64) :: (0x80 + c % 64) :: tail) = c :: toUTF16 tail := by
  rw [toUTF16.eq_def]
  dsimp only
  have e1 : (0xc0 + c / 64) >>> 4 = (0xc0 + c / 64) / 16 := Nat.shiftRight_eq_div_pow _ 4
  rw [e1, if_neg (by omega), if_pos (by omega)]
  have e2 : (0xc0 + c / 64) &&& 31 = (0xc0 + c / 64) % 32 := Nat.and_pow_two_sub_one_eq_mod _ 5
  have e3 : (0x80 + c % 64) &&& 63 = (0x80 + c % 64) % 64 := Nat.and_pow_two_sub_one_eq_mod _ 6
  have e4 : (0xc0 + c / 64) % 32 = c / 64 := by omega
  have e5 : (0x80 + c % 64) % 64 = c % 64 := by omega
  have e6 : (c / 64) <<< 6 = c / 64 * 64 := Nat.shiftLeft_eq _ 6
  rw [e2, e3, e4, e5, e6, lor_eq_add (k := 6) (by omega) (by omega)]
  congr 1
  omega

theorem toUTF16_three {c : Nat} (h1 : 0x800 ≤ c) (h2 : c < 0x10000) (tail : List Nat) :
    toUTF16 ((0xe0 + c / 4096) :: (0x80 + c / 64 % 64) :: (0x80 + c % 64) :: tail) =
      c :: toUTF16 tail := by
  rw [toUTF16.eq_def]
  dsimp only
  have e1 : (0xe0 + c / 4096) >>> 4 = (0xe0 + c / 4096) / 16 := Nat.shiftRight_eq_div_pow _ 4
  rw [e1, if_neg (by omega), if_neg (by omega), if_pos (by omega)]
  have e2 : (0xe0 + c / 4096) &&& 15 = (0xe0 + c / 4096) % 16 := Nat.and_pow_two_sub_one_eq_mod _ 4
  have e3 : (0x80 + c / 64 % 64) &&& 63 = (0x80 + c / 64 % 64) % 64 := Nat.and_pow_two_sub_one_eq_mod _ 6
  have e4 : (0x80 + c % 64) &&& 63 = (0x80 + c % 64) % 64 := Nat.and_pow_two_sub_one_eq_mod _ 6
  rw [e2, e3, e4]
  have e5 : (0xe0 + c / 4096) % 16 = c / 4096 := by omega
  have e6 : (0x80 + c / 64 % 64) % 64 = c / 64 % 64 := by omega
  have e7 : (0x80 + c % 64) % 64 = c % 64 := by omega
  rw [e5, e6, e7]
  have e8 : (c / 4096) <<< 12 = c / 4096 * 4096 := Nat.shiftLeft_eq _ 12
  have e9 : (c / 64 % 64) <<< 6 = c / 64 % 64 * 64 := Nat.shiftLeft_eq _ 6
  rw [e8, e9]
  have e10 : c / 4096 * 4096 ||| c / 64 % 64 * 64 = c / 4096 * 4096 + c / 64 % 64 * 64 :=
    lor_eq_add (k := 12) (by omega) (by omega)
  rw [e10, lor_eq_add (k := 6) (by omega) (by omega)]
  congr 1
  omega

theorem toUTF8_cons (c : Nat) (rest : List Nat) :
    toUTF8 (c :: rest) = utf8Enc c ++ toUTF8 rest := by
  simp [toUTF8]

theorem utf8_roundTrip : ∀ s : List Nat, (∀ c ∈ s, c < 0x10000) →
    toUTF16 (toUTF8 s) = s := by
  intro s
  induction s with
  | nil => intro; simp [toUTF8, toUTF16]
  | cons c rest ih =>
    intro h
    have hc : c < 0x10000 := h c (List.mem_cons_self c rest)
    have hr := ih (fun x hx => h x (List.mem_cons_of_mem c hx))
    rw [toUTF8_cons]
    rcases Nat.lt_or_ge c 0x80 with h1 | h1
    · rw [show utf8Enc c = [c] from by unfold utf8Enc; rw [if_pos h1]]
      simpa [toUTF16_one h1] using hr
    · rcases Nat.lt_or_ge c 0x800 with h2 | h2
      · rw [utf8Enc_two h1 h2]
        simpa [toUTF16_two h1 h2] using hr
      · rw [utf8Enc_three h2 hc]
        simpa [toUTF16_three h2 hc] using hr

theorem toUTF16_skip {c : Nat} (rest : List Nat)
    (h : (8 ≤ c >>> 4 ∧ c >>> 4 ≤ 11) ∨ c >>> 4 = 15) :
    toUTF16 (c :: rest) = toUTF16 rest := by
  rw [toUTF16.eq_def]
  dsimp only
  rw [if_neg (by omega), if_neg (by omega), if_neg (by omega)]


/-! ## Window prelude facts (claim C2) -/

set_option maxRecDepth 100000 in
theorem createWindow_len : createWindow.length = 1024 := by decide

set_option maxRecDepth 100000 in
/-- Claim C2 counterexample: the first 16 characters of the prelude are not
all spaces; the letter loops reach exactly 1024 characters (256 appends of
4 characters), so the left-padding loop never runs. -/
theorem createWindow_take16_ne_spaces :
    createWindow.take 16 ≠ List.replicate 16 32 := by decide

set_option maxRecDepth 100000 in
/-- Claim C2 (amended): the 1024-character prelude is deterministic (it is a
constant of the construction), has length exactly 1024, and begins with
the 16 characters of the spelled-out pair construction, which are not all
spaces. -/
theorem createWindow_deterministic_1024 :
    createWindow.length = 1024 ∧
    createWindow.take 16 =
      [32, 97, 32, 122, 32, 97, 32, 121, 32, 97, 32, 120, 32, 97, 32, 119] := by
  constructor
  · decide
  · decide

/-! ## UTF-8 bridge (claim C7) -/

/-- Claim C7 counterexample: malformed byte sequences do not always advance
the cursor without emission.  A truncated 3-byte sequence `[0xE3]` emits the
code unit 0x3000, because JavaScript evaluates `NaN & 0x3f` to 0 for the
missing continuation bytes, and an ill-continued 2-byte sequence
`[0xC2, 0x20]` emits 0xA0.  Only invalid lead bytes (high nibble 8-11
or 15) are skipped without emission. -/
theorem toUTF16_emits_on_malformed :
    toUTF16 [0xE3] = [0x3000] ∧ toUTF16 [0xC2, 0x20] = [0xA0] := by
  constructor
  · decide
  · decide

/-- Claim C7 (amended): `toUTF16` inverts `toUTF8` on every string of code units
below 0x10000 (lone surrogates included, since each unit in
`[0x800, 0xFFFF]` is encoded as an ordinary 3-byte sequence), and a
malformed lead byte (high nibble 8-11 or 15) advances the cursor without
emitting anything.  Other malformed sequences (truncated or ill-continued
multi-byte sequences) do emit a code unit; see the counterexample above. -/
theorem toUTF8_toUTF16_inverse :
    (∀ s : List Nat, (∀ c ∈ s, c < 0x10000) → toUTF16 (toUTF8 s) = s) ∧
    (∀ c rest, ((8 ≤ c >>> 4 ∧ c >>> 4 ≤ 11) ∨ c >>> 4 = 15) →
      toUTF16 (c :: rest) = toUTF16 rest) :=
  ⟨utf8_roundTrip, fun _ rest h => toUTF16_skip rest h⟩

theorem toUTF8_toUTF16_inverse_witness :
    ((∀ c ∈ [0x41, 0x3042, 0xD800, 0xFFFF], c < 0x10000) ∧
      toUTF16 (toUTF8 [0x41, 0x3042, 0xD800, 0xFFFF]) = [0x41, 0x3042, 0xD800, 0xFFFF]) ∧
    (((8 ≤ 0x80 >>> 4 ∧ 0x80 >>> 4 ≤ 11) ∨ 0x80 >>> 4 = 15) ∧
      toUTF16 [0x80, 0x41] = toUTF16 [0x41]) :=
  ⟨⟨by decide, toUTF8_toUTF16_inverse.1 _ (by decide)⟩,
   ⟨by decide, toUTF8_toUTF16_inverse.2 0x80 [0x41] (by decide)⟩⟩

/-! ## LZW decoder step behavior (claim C6) -/

/-- Relation between a source decoder state and a spec decoder state:
all shared fields agree and the source's internal `codeMax` is still the
initial `codeStart`. -/
theorem lzwDec_fold_spec (codeStart : Nat) :
    ∀ (cs : List Nat) (st : LZWDec) (st' : LZWDecSpecState),
      st.codeMax = codeStart →
      st.dict = st'.dict → st.code = st'.code → st.ch = st'.ch →
      st.prev = st'.prev → st.result = st'.result →
      ((cs.foldl lzwDecStep st).result =
        (cs.foldl (lzwDecStepSpec codeStart) st').result ∧
       (cs.foldl lzwDecStep st).codeMax = codeStart) := by
  intro cs
  induction cs with
  | nil =>
    intro st st' h0 h1 h2 h3 h4 h5
    exact ⟨h5, h0⟩
  | cons c rest ih =>
    intro st st' h0 h1 h2 h3 h4 h5
    simp only [List.foldl_cons]
    apply ih
    · simp [lzwDecStep]; exact h0
    · simp [lzwDecStep, lzwDecStepSpec, h0, h1, h2, h3, h4]
    · simp [lzwDecStep, lzwDecStepSpec, h2]
    · simp [lzwDecStep, lzwDecStepSpec, h0, h1, h3, h4]
    · simp [lzwDecStep, lzwDecStepSpec, h0, h1, h3, h4]
    · simp [lzwDecStep, lzwDecStepSpec, h0, h1, h3, h4, h5]

/-- Claim C6: the source LZW decoder implements the described step exactly:
each code after the first appends the literal `[c]` when `c ≤ codeStart`
(the internal `codeMax`, never grown), else the dictionary entry for `c`,
else `prev ++ [ch]` (KwKwK); each step then sets `ch` to the first emitted
character, stores `dict[code++] = prev ++ [ch]`, and sets `prev` to the
emission.  Formally the decoder equals the spec-side decoder whose literal
threshold is the constant `codeStart`. -/
theorem lzwDecompress_eq_spec (codeStart : Nat) (data : List Nat) :
    lzwDecompress codeStart data = lzwDecompressSpec codeStart data := by
  match data with
  | [] => rfl
  | c :: rest =>
    exact (lzwDec_fold_spec codeStart rest _ _ rfl rfl rfl rfl rfl rfl).1

/-! ## Dispatcher edge behavior (claim C9) -/

/-- Claim C9: compressing or decompressing the empty string yields the
empty string, and decompression of any non-empty input whose first
character is not one of the four tags returns the input verbatim. -/
theorem lzjs_empty_and_unknown_tag :
    lzjsCompress [] = [] ∧ lzjsDecompress [] = [] ∧
    ∀ t rest, t ≠ 83 → t ≠ 87 → t ≠ 85 → t ≠ 78 →
      lzjsDecompress (t :: rest) = t :: rest := by
  refine ⟨rfl, rfl, fun t rest h1 h2 h3 h4 => ?_⟩
  simp [lzjsDecompress, h1, h2, h3, h4]

theorem lzjs_empty_and_unknown_tag_witness :
    (90 : Nat) ≠ 83 ∧ (90 : Nat) ≠ 87 ∧ (90 : Nat) ≠ 85 ∧ (90 : Nat) ≠ 78 ∧
    lzjsDecompress [90, 1, 2] = [90, 1, 2] :=
  ⟨by decide, by decide, by decide, by decide,
    lzjs_empty_and_unknown_tag.2.2 90 [1, 2] (by decide) (by decide) (by decide) (by decide)⟩

/-! ## Dispatcher ASCII path (claim C5) -/

/-- Claim C5: on non-empty pure-ASCII input (`byteLength data = data.length`)
the dispatcher tries LZW with `codeStart = 0x7F`, `codeMax = 0x7FF` and
budget `maxBytes = byteLength data`; on budget failure it falls back to
LZSS with the same budget, then to the uncompressed input; the result is
the tag `W`/`S`/`N` prepended to the corresponding payload. -/
theorem lzjsCompress_ascii_path (data : List Nat) (hne : data ≠ [])
    (hascii : byteLength data = data.length) :
    (∃ r, lzwCompress 0x7f 0x7ff (some (byteLength data)) data = some r ∧
      lzjsCompress data = 87 :: r) ∨
    (lzwCompress 0x7f 0x7ff (some (byteLength data)) data = none ∧
      ∃ r, lzssCompress (some (byteLength data)) data = some r ∧
        lzjsCompress data = 83 :: r) ∨
    (lzwCompress 0x7f 0x7ff (some (byteLength data)) data = none ∧
      lzssCompress (some (byteLength data)) data = none ∧
      lzjsCompress data = 78 :: data) := by
  unfold lzjsCompress
  rw [if_neg hne, if_pos hascii]
  match hw : lzwCompress 0x7f 0x7ff (some (byteLength data)) data with
  | some r => exact Or.inl ⟨r, rfl, rfl⟩
  | none =>
    match hs : lzssCompress (some (byteLength data)) data with
    | some r => exact Or.inr (Or.inl ⟨rfl, r, rfl, rfl⟩)
    | none => exact Or.inr (Or.inr ⟨rfl, rfl, rfl⟩)

theorem lzjsCompress_ascii_path_witness :
    ([97] : List Nat) ≠ [] ∧ byteLength [97] = List.length [97] ∧
    ((∃ r, lzwCompress 0x7f 0x7ff (some (byteLength [97])) [97] = some r ∧
        lzjsCompress [97] = 87 :: r) ∨
      (lzwCompress 0x7f 0x7ff (some (byteLength [97])) [97] = none ∧
        ∃ r, lzssCompress (some (byteLength [97])) [97] = some r ∧
          lzjsCompress [97] = 83 :: r) ∨
      (lzwCompress 0x7f 0x7ff (some (byteLength [97])) [97] = none ∧
        lzssCompress (some (byteLength [97])) [97] = none ∧
        lzjsCompress [97] = 78 :: [97])) :=
  ⟨by decide, by decide, lzjsCompress_ascii_path [97] (by decide) (by decide)⟩

/-! ## Facts about the longest-match search (claims C4, C3, C1, C10) -/

theorem jsCharEq_true {data : List Nat} {a b : Nat} (h : jsCharEq data a b = true) :
    ∃ x, data[a]? = some x ∧ data[b]? = some x := by
  unfold jsCharEq at h
  match ha : data[a]?, hb : data[b]? with
  | some x, some y =>
    rw [ha, hb] at h
    simp at h
    exact ⟨x, rfl, by rw [h]⟩
  | some x, none => rw [ha, hb] at h; simp at h
  | none, _ => rw [ha] at h; simp at h

theorem jsCharEq_false_of_none {data : List Nat} {a b : Nat}
    (h : data[a]? = none) : jsCharEq data a b = false := by
  unfold jsCharEq
  rw [h]

theorem matchExtra_le (data : List Nat) (offset j len : Nat) :
    ∀ fuel k, k < len → k + matchExtra data offset j len fuel k ≤ len := by
  intro fuel
  induction fuel with
  | zero => intro k hk; rw [matchExtra]; omega
  | succ fuel ih =>
    intro k hk
    rw [matchExtra]
    by_cases hchar : jsCharEq data (offset + k) (j + k) = true
    · rw [if_pos hchar]
      by_cases hlt : k + 1 < len
      · rw [if_pos hlt]
        have := ih (k + 1) hlt
        omega
      · rw [if_neg hlt]
        omega
    · rw [if_neg hchar]
      omega

theorem matchExtra_zero_of_none (data : List Nat) (offset j len : Nat)
    (fuel k : Nat) (h : data[offset + k]? = none) :
    matchExtra data offset j len fuel k = 0 := by
  match fuel with
  | 0 => rw [matchExtra]
  | fuel + 1 =>
    rw [matchExtra, if_neg]
    rw [jsCharEq_false_of_none h]
    simp

theorem matchExtra_sound (data : List Nat) (offset j len : Nat) :
    ∀ fuel k q, q < matchExtra data offset j len fuel k →
      jsCharEq data (offset + (k + q)) (j + (k + q)) = true := by
  intro fuel
  induction fuel with
  | zero => intro k q hq; rw [matchExtra] at hq; omega
  | succ fuel ih =>
    intro k q hq
    rw [matchExtra] at hq
    by_cases hchar : jsCharEq data (offset + k) (j + k) = true
    · rw [if_pos hchar] at hq
      by_cases hlt : k + 1 < len
      · rw [if_pos hlt] at hq
        match q with
        | 0 => simpa using hchar
        | q' + 1 =>
          have := ih (k + 1) q' (by omega)
          have e : k + (q' + 1) = k + 1 + q' := by omega
          rw [e]
          exact this
      · rw [if_neg hlt] at hq
        match q with
        | 0 => simpa using hchar
    · rw [if_neg hchar] at hq
      omega

theorem lastOcc_some {win s : List Nat} {limit k : Nat}
    (h : lastOcc win s limit = some k) : k ≤ limit ∧ s <+: win.drop k := by
  unfold lastOcc at h
  have h1 : s.isPrefixOf (win.drop k) = true :=
    List.find?_some (p := fun k => s.isPrefixOf (win.drop k)) h
  have h2 := List.mem_of_find?_eq_some h
  simp only [List.mem_reverse, List.mem_range] at h2
  exact ⟨by omega, List.isPrefixOf_iff_prefix.mp h1⟩

theorem firstOcc_some {win s : List Nat} {k : Nat}
    (h : firstOcc win s = some k) : s <+: win.drop k := by
  unfold firstOcc at h
  have h1 : s.isPrefixOf (win.drop k) = true :=
    List.find?_some (p := fun k => s.isPrefixOf (win.drop k)) h
  exact List.isPrefixOf_iff_prefix.mp h1

theorem jsSub_getElem? (l : List Nat) (a b q : Nat) :
    (jsSub l a b)[q]? = if a + q < b then l[a + q]? else none := by
  unfold jsSub
  rw [List.getElem?_drop]
  by_cases h : a + q < b
  · rw [List.getElem?_take_of_lt h, if_pos h]
  · rw [if_neg h]
    apply List.getElem?_eq_none
    simp only [List.length_take]
    omega

theorem jsSub_length (l : List Nat) (a b : Nat) :
    (jsSub l a b).length = min b l.length - a := by
  simp [jsSub]

theorem jsSub_length_of_le {l : List Nat} {a b : Nat} (hab : a ≤ b)
    (hb : b ≤ l.length) : (jsSub l a b).length = b - a := by
  rw [jsSub_length]
  omega

theorem jsSub_append (l : List Nat) {a b c : Nat} (hab : a ≤ b) (hbc : b ≤ c)
    (hc : c ≤ l.length) : jsSub l a b ++ jsSub l b c = jsSub l a c := by
  apply List.ext_getElem?
  intro q
  by_cases h1 : q < b - a
  · rw [List.getElem?_append, if_pos (by rw [jsSub_length_of_le hab (le_trans hbc hc)]; omega)]
    rw [jsSub_getElem?, jsSub_getElem?, if_pos (by omega), if_pos (by omega)]
  · rw [List.getElem?_append,
      if_neg (by rw [jsSub_length_of_le hab (le_trans hbc hc)]; omega)]
    rw [jsSub_length_of_le hab (le_trans hbc hc)]
    rw [jsSub_getElem?, jsSub_getElem?]
    by_cases h2 : a + q < c
    · rw [if_pos (by omega), if_pos h2]
      congr 1
      omega
    · rw [if_neg (by omega), if_neg h2]

/-- From an occurrence of the current search string at `m` (found by
`lastIndexOf`) and the greedy extension, the full match property. -/
theorem matchEq_of_occ (data win : List Nat) (offset pos len fuel : Nat)
    (hwin : win = jsSub data pos (offset + len)) {i m : Nat}
    (hiL : offset + i ≤ data.length)
    (hocc : jsSub data offset (offset + i) <+: win.drop m) :
    matchEq data offset (pos + m)
      (i + matchExtra data offset (pos + m) len fuel i) := by
  intro k hk
  by_cases hki : k < i
  · -- from the occurrence
    have hsl : (jsSub data offset (offset + i)).length = i := by
      rw [jsSub_length_of_le (by omega) hiL]
      omega
    have hget : (jsSub data offset (offset + i))[k]? = data[offset + k]? := by
      rw [jsSub_getElem?, if_pos (by omega)]
    have hx : ∃ x, data[offset + k]? = some x := by
      refine ⟨data[offset + k], List.getElem?_eq_getElem (by omega)⟩
    obtain ⟨x, hx⟩ := hx
    refine ⟨x, hx, ?_⟩
    -- (win.drop m)[k]? = s'[k]?
    obtain ⟨u, hu⟩ := hocc
    have : (win.drop m)[k]? = (jsSub data offset (offset + i))[k]? := by
      rw [← hu, List.getElem?_append, if_pos (by omega)]
    rw [List.getElem?_drop] at this
    rw [hget, hx] at this
    -- win[m + k]? = some x, win = jsSub data pos (offset + len)
    rw [hwin, jsSub_getElem?] at this
    by_cases hb : pos + (m + k) < offset + len
    · rw [if_pos hb] at this
      rw [← this]
      congr 1
      omega
    · rw [if_neg hb] at this
      exact absurd this (by simp)
  · -- from the greedy extension
    have hq := matchExtra_sound data offset (pos + m) len fuel i (k - i) (by omega)
    have e : i + (k - i) = k := by omega
    rw [e] at hq
    obtain ⟨x, h1, h2⟩ := jsCharEq_true hq
    exact ⟨x, h1, h2⟩

set_option maxRecDepth 10000 in
theorem TABLE_LENGTH_eq : TABLE_LENGTH = 121 := by decide

set_option maxRecDepth 10000 in
theorem BUFFER_MAX_eq : BUFFER_MAX = 120 := by decide

/-- Master lemma for the body of `_search`: bounds and the match property
for the loop's result, given the entry invariants.  The fuel-exhaustion
branch returns the entry state, which the first disjunct of the conclusion
covers, so no fuel hypothesis is needed. -/
theorem searchLoop_spec (data win : List Nat) (offset pos limit len : Nat)
    (hwin : win = jsSub data pos (offset + len))
    (hlen : len = min BUFFER_MAX (data.length - offset)) :
    ∀ fuel i s index best,
      2 ≤ i → i ≤ len → (2 < i → i < len) →
      (i = 3 → s = jsSub data offset (offset + 2)) →
      (∀ b, best = some b → b ≤ limit ∧ matchEq data offset (pos + b) (i - 1)) →
      (2 < i → best.isSome = true) →
      ∀ i_f b_f,
        searchLoop data win offset pos limit len fuel i s index best = (i_f, b_f) →
        i ≤ i_f ∧ i_f ≤ len + 1 ∧
        (i_f = i ∧ b_f = best ∨
          ∃ b, b_f = some b ∧ b ≤ limit ∧ matchEq data offset (pos + b) (i_f - 1)) := by
  intro fuel
  induction fuel with
  | zero =>
    intro i s index best h2 hle hlt3 hs3 hbest hsome i_f b_f hres
    rw [searchLoop] at hres
    have h1 : i = i_f := congrArg Prod.fst hres
    have hb1 : best = b_f := congrArg Prod.snd hres
    exact ⟨by omega, by omega, Or.inl ⟨h1.symm, hb1.symm⟩⟩
  | succ fuel ih =>
    intro i s index best h2 hle hlt3 hs3 hbest hsome i_f b_f hres
    have hLo : offset + len ≤ data.length := by
      have hl2 : len ≤ data.length - offset := by rw [hlen]; omega
      rcases le_or_lt offset data.length with h | h
      · omega
      · have h0 : data.length - offset = 0 := by omega
        rw [hlen, h0] at hle
        simp at hle
        omega
    have hs' : (if i = 2 then jsSub data offset (offset + 2)
        else if i = 3 then s ++ jsSub data (offset + 2) (offset + 3)
        else jsSub data offset (offset + i)) = jsSub data offset (offset + i) := by
      by_cases hi2 : i = 2
      · rw [if_pos hi2, hi2]
      · rw [if_neg hi2]
        by_cases hi3 : i = 3
        · rw [if_pos hi3, hs3 hi3, hi3]
          exact jsSub_append data (by omega) (by omega) (by omega)
        · rw [if_neg hi3]
    rw [searchLoop] at hres
    dsimp only [] at hres
    rw [hs'] at hres
    generalize hidx0 : (if i = 2 then firstOcc win (jsSub data offset (offset + i))
        else index) = index0 at hres
    split at hres
    · -- early break at i = 2
      have h1 : i = i_f := congrArg Prod.fst hres
      have hb1 : best = b_f := congrArg Prod.snd hres
      exact ⟨by omega, by omega, Or.inl ⟨h1.symm, hb1.symm⟩⟩
    · rename_i hbrk
      split at hres
      · -- lastOcc found nothing
        have h1 : i = i_f := congrArg Prod.fst hres
        have hb1 : best = b_f := congrArg Prod.snd hres
        exact ⟨by omega, by omega, Or.inl ⟨h1.symm, hb1.symm⟩⟩
      · rename_i m hocc
        obtain ⟨hmlim, hmocc⟩ := lastOcc_some hocc
        have hext : matchEq data offset (pos + m)
            (i + matchExtra data offset (pos + m) len (len + 1) i) :=
          matchEq_of_occ data win offset pos len (len + 1) hwin (by omega) hmocc
        have hi'le : i + matchExtra data offset (pos + m) len (len + 1) i ≤ len := by
          rcases Nat.lt_or_ge i len with h | h
          · exact matchExtra_le data offset (pos + m) len (len + 1) i h
          · have hi2 : i = 2 := by
              by_contra hne
              exact absurd (hlt3 (by omega)) (by omega)
            have hlen2 : len = 2 := by omega
            have hL2 : data.length = offset + 2 := by
              rw [hlen, BUFFER_MAX_eq] at hlen2
              omega
            have hnone : data[offset + i]? = none := by
              apply List.getElem?_eq_none
              omega
            rw [matchExtra_zero_of_none data offset (pos + m) len (len + 1) i hnone]
            omega
        split at hres
        · -- index === lastIndex: stop with i' + 1
          have h1 : i + matchExtra data offset (pos + m) len (len + 1) i + 1 = i_f :=
            congrArg Prod.fst hres
          have hb1 : (some m : Option Nat) = b_f := congrArg Prod.snd hres
          refine ⟨by omega, by omega, Or.inr ⟨m, hb1.symm, hmlim, ?_⟩⟩
          rw [← h1]
          simpa using hext
        · rename_i hidx
          split at hres
          · -- recursive call
            rename_i hrec
            have hstep := ih (i + matchExtra data offset (pos + m) len (len + 1) i + 1)
              (jsSub data offset (offset + i)) index0 (some m)
              (by omega) (by omega) (fun _ => by omega)
              (by
                intro hi3
                have hz : i = 2 ∧ matchExtra data offset (pos + m) len (len + 1) i = 0 := by
                  omega
                rw [hz.1])
              (by
                intro b hb
                have hmb : m = b := by injection hb
                subst hmb
                refine ⟨hmlim, ?_⟩
                simpa using hext)
              (fun _ => rfl) i_f b_f hres
            refine ⟨by omega, hstep.2.1, Or.inr ?_⟩
            rcases hstep.2.2 with ⟨hfi, hbf⟩ | h
            · exact ⟨m, hbf, hmlim, by rw [hfi]; simpa using hext⟩
            · exact h
          · -- loop condition fails: stop with i' + 1
            have h1 : i + matchExtra data offset (pos + m) len (len + 1) i + 1 = i_f :=
              congrArg Prod.fst hres
            have hb1 : (some m : Option Nat) = b_f := congrArg Prod.snd hres
            refine ⟨by omega, by omega, Or.inr ⟨m, hb1.symm, hmlim, ?_⟩⟩
            rw [← h1]
            simpa using hext

/-- Arithmetic of the distance `WINDOW_BUFFER_MAX - bestIndex`. -/
theorem dist_base {offset b d : Nat} (h1 : 304 - b = d) (h2 : b ≤ 303)
    (h3 : 304 ≤ offset) : offset - 304 + b = offset - d := by omega

set_option maxRecDepth 8000 in
/-- Bounds and validity of a successful `_search`: the length is between 2
and `BUFFER_MAX`, the distance between 1 and `WINDOW_BUFFER_MAX`, the match
fits in the input, and (under the call-site invariant
`offset ≥ WINDOW_BUFFER_MAX`) the region at distance `d` back agrees
pointwise with the lookahead. -/
theorem lzssSearch_spec {data : List Nat} {offset d l : Nat}
    (h : lzssSearch data offset = some (d, l)) :
    2 ≤ l ∧ l ≤ BUFFER_MAX ∧ 1 ≤ d ∧ d ≤ WINDOW_BUFFER_MAX ∧
    offset + l ≤ data.length ∧
    (WINDOW_BUFFER_MAX ≤ offset → matchEq data offset (offset - d) l) := by
  unfold lzssSearch at h
  dsimp only [] at h
  split at h
  · exact absurd h (by simp)
  · rename_i hlen2
    split at h
    · exact absurd h (by simp)
    · exact absurd h (by simp)
    · rename_i iv bv hne heq
      have hmin1 : min BUFFER_MAX (data.length - offset) ≤ BUFFER_MAX :=
        Nat.min_le_left _ _
      have hmin2 : min BUFFER_MAX (data.length - offset) ≤ data.length - offset :=
        Nat.min_le_right _ _
      have hlenge : 2 ≤ min BUFFER_MAX (data.length - offset) := by omega
      have hspec := searchLoop_spec data
        (jsSub data (offset - WINDOW_BUFFER_MAX)
          (offset + min BUFFER_MAX (data.length - offset)))
        offset (offset - WINDOW_BUFFER_MAX)
        (offset + 2 - 3 - (offset - WINDOW_BUFFER_MAX))
        (min BUFFER_MAX (data.length - offset)) rfl rfl
        (min BUFFER_MAX (data.length - offset))
        2 [] none none (by omega) hlenge (by omega) (by omega)
        (by intro bb hbb; cases hbb) (by omega) iv (some bv) heq
      obtain ⟨hd, hl⟩ : WINDOW_BUFFER_MAX - bv = d ∧ iv - 1 = l := by
        have h1 := Option.some.inj h
        exact ⟨congrArg Prod.fst h1, congrArg Prod.snd h1⟩
      obtain ⟨hiv2, hivle, hdisj⟩ := hspec
      have hiv3 : 3 ≤ iv := by
        rcases Nat.lt_or_ge iv 3 with hc | hc
        · have h22 : iv = 2 := by omega
          exact absurd h22 (fun h2 => hne h2)
        · exact hc
      obtain ⟨b, hbeq, hblim, hbmatch⟩ := hdisj.resolve_left (by
        rintro ⟨hfi, hbf⟩
        exact hne (by omega))
      have hbv : b = bv := by injection hbeq with h2; exact h2.symm
      subst hbv
      have hlim : offset + 2 - 3 - (offset - WINDOW_BUFFER_MAX) ≤ 303 := by
        have : WINDOW_BUFFER_MAX = 304 := rfl
        omega
      have hWB : WINDOW_BUFFER_MAX = 304 := rfl
      have g1 : 2 ≤ l := by omega
      have g2 : l ≤ BUFFER_MAX := by omega
      have g3 : 1 ≤ d := by omega
      have g4 : d ≤ WINDOW_BUFFER_MAX := by omega
      have g5 : offset + l ≤ data.length := by omega
      refine ⟨g1, g2, g3, g4, g5, ?_⟩
      intro hoff
      have hb303 : b ≤ 303 := le_trans hblim hlim
      have hbase : offset - WINDOW_BUFFER_MAX + b = offset - d :=
        dist_base (hWB ▸ hd) hb303 (hWB ▸ hoff)
      rw [← hl, ← hbase]
      exact hbmatch

/-! ## Claim C4: match opcode bounds -/

/-- Claim C4: every match computed by the longest-match search satisfies
`2 ≤ length ≤ BUFFER_MAX` and `1 ≤ distance ≤ WINDOW_BUFFER_MAX`, where the
search returns `(distance, length) = (WINDOW_BUFFER_MAX - bestIndex, i - 1)`.
Every match opcode emitted by the compressor comes from such a result. -/
theorem lzssSearch_match_bounds (data : List Nat) (offset d l : Nat)
    (h : lzssSearch data offset = some (d, l)) :
    2 ≤ l ∧ l ≤ BUFFER_MAX ∧ 1 ≤ d ∧ d ≤ WINDOW_BUFFER_MAX :=
  ⟨(lzssSearch_spec h).1, (lzssSearch_spec h).2.1,
   (lzssSearch_spec h).2.2.1, (lzssSearch_spec h).2.2.2.1⟩

set_option maxRecDepth 1000000 in
theorem lzssSearch_match_bounds_witness :
    lzssSearch (List.replicate 308 97) 304 = some (1, 4) ∧
    (2 ≤ 4 ∧ 4 ≤ BUFFER_MAX ∧ 1 ≤ 1 ∧ 1 ≤ WINDOW_BUFFER_MAX) :=
  ⟨by decide, lzssSearch_match_bounds (List.replicate 308 97) 304 1 4 (by decide)⟩

/-! ## Claim C10: no budget means no failure -/

theorem lzwLoop_total (codeMax : Nat) :
    ∀ (rest buffer : List Nat) (st : LZWComp),
      (lzwLoop codeMax none rest buffer st).isSome = true := by
  intro rest
  induction rest with
  | nil =>
    intro buffer st
    rw [lzwLoop]
    simp [budgetExceeded]
  | cons c r ih =>
    intro buffer st
    rw [lzwLoop]
    dsimp only []
    split
    · exact ih _ _
    · simp only [budgetExceeded]
      exact ih _ _

theorem lzssLoop_total (data : List Nat) :
    ∀ (fuel offset : Nat) (lastIndex : Option Nat) (bytes : Nat) (acc : List Nat),
      data.length - offset < fuel →
      (lzssLoop data none fuel offset lastIndex bytes acc).isSome = true := by
  intro fuel
  induction fuel with
  | zero => intro offset _ _ _ h; omega
  | succ fuel ih =>
    intro offset lastIndex bytes acc h
    rw [lzssLoop]
    dsimp only []
    split
    · rename_i hoff
      split
      · rename_i hsearch
        split
        · split
          · simp only [budgetExceeded]
            exact ih _ _ _ _ (by omega)
          · simp only [budgetExceeded]
            exact ih _ _ _ _ (by omega)
        · split
          · simp only [budgetExceeded]
            exact ih _ _ _ _ (by omega)
          · simp only [budgetExceeded]
            exact ih _ _ _ _ (by omega)
      · rename_i d l hsearch
        have hb := lzssSearch_spec hsearch
        split
        · simp only [budgetExceeded]
          exact ih _ _ _ _ (by omega)
        · simp only [budgetExceeded]
          exact ih _ _ _ _ (by omega)
    · simp

/-- Claim C10: with no `maxBytes` option, neither compressor can return the
`BUDGET_EXCEEDED` signal, because `bytes > undefined` is never true. -/
theorem compress_total_without_maxBytes (data : List Nat) (cs cm : Nat) :
    (lzssCompress none data).isSome = true ∧
    (lzwCompress cs cm none data).isSome = true := by
  constructor
  · unfold lzssCompress
    split
    · rfl
    · exact lzssLoop_total _ _ _ _ _ _ (by
        simp only [List.length_append, createWindow_len]
        omega)
  · unfold lzwCompress
    split
    · rfl
    · exact lzwLoop_total _ _ _ _

/-! ## Claim C8: out-of-alphabet symbols in the LZSS decoder -/

set_option maxRecDepth 1000000 in
set_option maxHeartbeats 2000000 in
/-- Claim C8 counterexample: inserting the out-of-alphabet character 0x0A
inside the multi-symbol CHAR_START opcode `[53, 6, 0, 0]` changes the
decoded output (the page symbol read by `data.charAt(++offset)` is consumed
blindly, not skipped), so decompression is not invariant under insertion of
out-of-alphabet characters at arbitrary positions. -/
theorem lzssDecompress_insert_changes :
    tableIndex 10 = none ∧
    lzssDecompress [53, 10, 6, 0, 0] ≠ lzssDecompress [53, 6, 0, 0] := by
  constructor
  · decide
  · decide

/-- Out-of-alphabet characters are skipped at the top of the decoder loop. -/
theorem lzssDecLoop_skip {x : Nat} (hx : tableIndex x = none)
    (fuel : Nat) (rest : List Nat) (out : Bool) (index : JVal) (result : List Nat) :
    lzssDecLoop (fuel + 1) (x :: rest) out index result =
      lzssDecLoop fuel rest out index result := by
  rw [lzssDecLoop.eq_def]
  dsimp only
  rw [hx]

/-- Claim C8 (amended): the decoder silently skips an out-of-alphabet
symbol exactly when it reads it at the top of its per-opcode loop: from any
decoder state, consuming such a character changes nothing, and in
particular prepending it to a payload leaves the decompressed output
unchanged.  (Characters consumed blindly inside a multi-symbol opcode are
not skipped; see the counterexample.) -/
theorem lzssDecompress_skips_at_loop_top {x : Nat} (hx : tableIndex x = none) :
    (∀ (fuel : Nat) (rest : List Nat) (out : Bool) (index : JVal) (result : List Nat),
      lzssDecLoop (fuel + 1) (x :: rest) out index result =
        lzssDecLoop fuel rest out index result) ∧
    (∀ p : List Nat, lzssDecompress (x :: p) = lzssDecompress p) := by
  refine ⟨fun fuel rest out index result => lzssDecLoop_skip hx fuel rest out index result, ?_⟩
  intro p
  unfold lzssDecompress
  rw [if_neg (by simp)]
  have hlen : (x :: p).length + 1 = p.length + 1 + 1 := by simp
  rw [hlen, lzssDecLoop_skip hx]
  match p with
  | [] =>
    rw [if_pos rfl]
    rw [lzssDecLoop]
    apply List.drop_eq_nil_of_le
    rw [createWindow_len]
    decide
  | q :: p' =>
    rw [if_neg (by simp)]

set_option maxRecDepth 1000000 in
set_option maxHeartbeats 2000000 in
theorem lzssDecompress_skips_at_loop_top_witness :
    tableIndex 10 = none ∧
    lzssDecLoop 3 [10, 48, 37] false JVal.null [] =
      lzssDecLoop 2 [48, 37] false JVal.null [] ∧
    lzssDecompress [10, 48, 37] = lzssDecompress [48, 37] :=
  ⟨by decide,
   (lzssDecompress_skips_at_loop_top (by decide)).1 2 [48, 37] false JVal.null [],
   (lzssDecompress_skips_at_loop_top (by decide)).2 [48, 37]⟩

/-! ## Claim C3: the LZSS compressor emits only alphabet characters -/

/-- Every value of `tableAt` is a member of `TABLE`: in-range indices give a
table entry, and out-of-range indices give the default 0, which is itself in
the table. -/
theorem tableAt_mem (k : Nat) : tableAt k ∈ TABLE := by
  unfold tableAt
  rw [List.getD_eq_getElem?_getD]
  cases h : TABLE[k]? with
  | none => simp only [Option.getD_none]; decide
  | some v =>
    simp only [Option.getD_some]
    exact List.getElem?_mem h

/-- Every character of `TABLE` has code point below 0x7F and is not one of
the six excluded escape codes. -/
theorem table_chars_ok : ∀ x ∈ TABLE, x < 0x7F ∧ x ∉ escCodes := by decide

set_option maxRecDepth 100000 in
theorem lzssLoop_subset (data : List Nat) (maxBytes : Option Nat) :
    ∀ (fuel offset : Nat) (lastIndex : Option Nat) (bytes : Nat)
      (acc out : List Nat),
      lzssLoop data maxBytes fuel offset lastIndex bytes acc = some out →
      (∀ x ∈ acc, x ∈ TABLE) → ∀ x ∈ out, x ∈ TABLE := by
  intro fuel
  induction fuel with
  | zero => intro _ _ _ _ _ h; exact Option.noConfusion h
  | succ fuel ih =>
    intro offset lastIndex bytes acc out h hacc
    rw [lzssLoop] at h
    split at h
    · split at h
      · dsimp only [] at h
        repeat' split at h
        all_goals
          first
          | exact Option.noConfusion h
          | (refine ih _ _ _ _ _ h ?_
             intro x hx
             rcases List.mem_append.1 hx with hx | hx
             · exact hacc x hx
             · simp only [List.mem_cons, List.not_mem_nil, or_false] at hx
               first
               | exact hx ▸ tableAt_mem _
               | (rcases hx with rfl | rfl <;> exact tableAt_mem _)
               | (rcases hx with rfl | rfl | rfl <;> exact tableAt_mem _)
               | (rcases hx with rfl | rfl | rfl | rfl <;> exact tableAt_mem _))
      · dsimp only [] at h
        repeat' split at h
        all_goals
          first
          | exact Option.noConfusion h
          | (refine ih _ _ _ _ _ h ?_
             intro x hx
             rcases List.mem_append.1 hx with hx | hx
             · exact hacc x hx
             · simp only [List.mem_cons, List.not_mem_nil, or_false] at hx
               first
               | exact hx ▸ tableAt_mem _
               | (rcases hx with rfl | rfl <;> exact tableAt_mem _)
               | (rcases hx with rfl | rfl | rfl <;> exact tableAt_mem _)
               | (rcases hx with rfl | rfl | rfl | rfl <;> exact tableAt_mem _))
    · injection h with h
      exact fun x hx => hacc x (h ▸ hx)

/-- Claim C3: every character of a string returned by
`LZSSCompressor.prototype.compress` lies in the output alphabet: its code
point is below 0x7F and is none of the escape codes
{0x08, 0x0A, 0x0B, 0x0C, 0x0D, 0x5C}.  (This holds for every input, BMP or
not, and with or without a byte budget, because every emitted character is
read from `TABLE`; the out-of-range accesses that JavaScript turns into
`undefined` are modelled by the in-table default 0.) -/
theorem lzssCompress_output_in_alphabet (maxBytes : Option Nat)
    (data out : List Nat) (h : lzssCompress maxBytes data = some out) :
    ∀ x ∈ out, x < 0x7F ∧ x ∉ escCodes := by
  intro x hx
  refine table_chars_ok x ?_
  unfold lzssCompress at h
  split at h
  · injection h with h
    exact absurd (h ▸ hx) (List.not_mem_nil x)
  · exact lzssLoop_subset _ _ _ _ _ _ _ _ h (by intro y hy; cases hy) x hx

set_option maxRecDepth 1000000 in
set_option maxHeartbeats 2000000 in
theorem lzssCompress_output_in_alphabet_witness :
    50 < 0x7F ∧ 50 ∉ escCodes :=
  lzssCompress_output_in_alphabet none [97] [50, 22] (by decide) 50 (by decide)

end Lzjs
